import Mathlib

/-!
Verification of the devlog-mcp workspace coordination core: the lease store,
lock manager, heartbeat scheduler, session metadata engine and tool tracker,
together with the `devlog_workspace_claim` and `devlog_workspace_dump`
handlers of `src/tools/workspace-tools.ts`.

Timestamps are modelled as natural numbers (milliseconds since epoch);
durations in whole minutes are obtained by division by 60000.  The lease
store holds a single lock record at a well-known path, so it is modelled as
an `Option Lease`.
-/

/-- A lease record as persisted by the lease store (spec section 3):
`agent_id`, `session_id`, `acquired_at`, `expires_at`. -/
structure Lease where
  agent_id : String
  session_id : String
  acquired_at : Nat
  expires_at : Nat
deriving DecidableEq

/-- Modelled from the spec: the error taxonomy of `src/utils/lock-manager.ts`,
which is not present in the source tree (spec section 7).  `Conflict` carries
the owning agent id and the lease expiry. -/
inductive LockError where
  | Conflict (owner : String) (expires : Nat)
deriving DecidableEq

/-- Modelled from the spec: `acquireLock` of the missing
`src/utils/lock-manager.ts` (spec section 4.1, `Claim`).  If no lease exists,
or the existing one is expired (`now >= expires_at`), or `force = true`, or
the existing lease is owned by the same agent (heartbeat renewal re-claims
with the same agent id), a fresh lease with `acquired_at = now` and
`expires_at = now + ttl` is written; a live lease owned by a different agent
with `force = false` yields `Conflict` and leaves the store unchanged. -/
def acquireLock (now ttl : Nat) (agentId sessionId : String) (force : Bool)
    (store : Option Lease) : Except LockError Lease × Option Lease :=
  let fresh : Lease := ⟨agentId, sessionId, now, now + ttl⟩
  match store with
  | none => (Except.ok fresh, some fresh)
  | some old =>
      if force = false ∧ now < old.expires_at ∧ old.agent_id ≠ agentId then
        (Except.error (LockError.Conflict old.agent_id old.expires_at), some old)
      else (Except.ok fresh, some fresh)

/-- Modelled from the spec: `checkLock` of the missing
`src/utils/lock-manager.ts` (spec section 4.1, `Check`).  Returns the current
lease only if non-expired; returns nothing if absent or expired. -/
def checkLock (now : Nat) (store : Option Lease) : Option Lease :=
  match store with
  | none => none
  | some l => if now < l.expires_at then some l else none

/-- Modelled from the spec: `releaseLock` of the missing
`src/utils/lock-manager.ts` (spec section 4.1, `Release`).  Deletes the lease
record only if its `agent_id` matches the caller; releasing a lease you do
not own is a no-op success.  The `Bool` component is the success flag. -/
def releaseLock (agentId : String) (store : Option Lease) : Bool × Option Lease :=
  match store with
  | none => (true, none)
  | some l => if l.agent_id = agentId then (true, none) else (true, some l)

/-- Modelled from the spec: `calculateDuration` of the missing
`src/utils/session-metadata.ts` (spec section 4.3): wall-clock difference in
whole minutes, floor-rounded, clamped to zero when `endT < startT`. -/
def calculateDuration (startT endT : Int) : Int :=
  max ((endT - startT) / 60000) 0

/-- One `Claim` request issued against the lock manager: calling agent,
session token and the wall-clock time of the call. -/
structure ClaimCall where
  agent : String
  session : String
  time : Nat
deriving DecidableEq

/-- Runs a sequence of non-forced `Claim` calls against the lease store,
returning each call's result and the final store contents. -/
def runClaims (ttl : Nat) : Option Lease → List ClaimCall → List (Except LockError Lease) × Option Lease
  | store, [] => ([], store)
  | store, c :: cs =>
      let step := acquireLock c.time ttl c.agent c.session false store
      let rest := runClaims ttl step.2 cs
      (step.1 :: rest.1, rest.2)

/-- Status of one task tracked in the session metadata (spec section 3). -/
inductive TaskStatus where
  | active
  | completed
  | paused
deriving DecidableEq

/-- One entry of the `tasks` list of the session metadata (spec section 3). -/
structure TaskEntry where
  title : String
  status : TaskStatus
  duration_minutes : Nat
deriving DecidableEq

/-- Modelled from the spec: the `SessionMetadata` record of the missing
`src/utils/session-metadata.ts` (spec section 3).  `startT`/`endT` stand for
`session.start`/`session.end`; counter mappings are association lists. -/
structure SessionMetadata where
  agentId : String
  sessionId : String
  startT : Nat
  endT : Option Nat
  lock_acquired : Option Nat
  lock_expires : Option Nat
  total_minutes : Nat
  active_minutes : Nat
  tasks : List TaskEntry
  tool_usage : List (String × Nat)
  activity_breakdown : List (String × Nat)
deriving DecidableEq

/-- Modelled from the spec: `createInitialMetadata` of the missing
`src/utils/session-metadata.ts` (spec section 4.3, `CreateInitial`): zeroed
structure with `session.start = now`. -/
def createInitialMetadata (now : Nat) (agentId sessionId : String) : SessionMetadata :=
  ⟨agentId, sessionId, now, none, none, none, 0, 0, [], [], []⟩

/-- Modelled from the spec: the workspace file (spec section 6): a structured
header block (the embedded `SessionMetadata`, absent on a fresh file) followed
by freeform text content; the header also records the owning `agent_id`,
which `parseAgentFromContent` of the missing `src/utils/workspace.ts` reads
back. -/
structure WFile where
  agent : String
  header : Option SessionMetadata
  body : String
deriving DecidableEq

/-- Modelled from the spec: `updateMetadata` of the missing
`src/utils/session-metadata.ts` (spec section 4.3, `Update`): overwrites the
embedded structured header, preserving the freeform body. -/
def updateMetadata (md : SessionMetadata) (f : WFile) : WFile :=
  { f with header := some md }

/-- Modelled from the spec: `extractMetadata` of the missing
`src/utils/session-metadata.ts` (spec section 4.3, `Extract`): parses the
structured header back out; absence returns nothing rather than throwing. -/
def extractMetadata (f : WFile) : Option SessionMetadata :=
  f.header

/-- Modelled from the spec: the in-memory state of the missing
`src/utils/tool-tracker.ts` (spec section 4.4): an enabled flag and per-tool
invocation counters. -/
structure ToolTracker where
  enabled : Bool
  counters : List (String × Nat)
deriving DecidableEq

/-- Increments the counter for `name` in an association list, appending a
fresh entry when absent. -/
def bump (name : String) : List (String × Nat) → List (String × Nat)
  | [] => [(name, 1)]
  | (k, v) :: rest => if k = name then (k, v + 1) :: rest else (k, v) :: bump name rest

/-- Modelled from the spec: `Record(toolName)` of the missing
`src/utils/tool-tracker.ts` (spec section 4.4): increments an in-memory
counter when tracking is enabled, never fails. -/
def recordTool (name : String) (t : ToolTracker) : ToolTracker :=
  if t.enabled then { t with counters := bump name t.counters } else t

/-- Records a whole list of tool invocations in order. -/
def recordAll (names : List String) (t : ToolTracker) : ToolTracker :=
  names.foldl (fun acc n => recordTool n acc) t

/-- Modelled from the spec: `flushToolTracking` of the missing
`src/utils/tool-tracker.ts` (spec section 4.4, `Flush`): drains the counters
into a snapshot consumable by `Update`, resetting them to zero. -/
def flushTracker (t : ToolTracker) : List (String × Nat) × ToolTracker :=
  (t.counters, { t with counters := [] })

/-- Sum of all counts of a counter mapping. -/
def sumCounts (cs : List (String × Nat)) : Nat :=
  (cs.map Prod.snd).sum

/-- Adds `n` to the counter for `name` in an association list. -/
def addCount (name : String) (n : Nat) : List (String × Nat) → List (String × Nat)
  | [] => [(name, n)]
  | (k, v) :: rest => if k = name then (k, v + n) :: rest else (k, v) :: addCount name n rest

/-- Merges a flushed snapshot into a `tool_usage` mapping, adding counts
pointwise (spec section 4.4: the snapshot is consumable by `Update`). -/
def mergeCounts (snap usage : List (String × Nat)) : List (String × Nat) :=
  snap.foldl (fun acc kv => addCount kv.1 kv.2 acc) usage

/-- Modelled from the spec: the icon lookup of the excluded presentation layer
(`src/utils/icons.ts` is out of scope by spec section 1; spec section 9 says
to model it as a plain lookup behind one formatting function).  Its values
never contain a newline or a hash mark, which is all the core relies on. -/
def icon (name : String) : String :=
  name

/-- The freeform body written by the `devlog_workspace_claim` handler
(`src/tools/workspace-tools.ts` lines 66-94), ending in the Progress
section heading. -/
def workspaceBody (agentId sessionId task : String) : String :=
  "# Current Workspace\n\n## " ++ icon "task" ++ " Active Task\n" ++ task ++
    "\n\n## " ++ icon "chart" ++ " Session Info\n- Agent: " ++ agentId ++
    "\n- Session: " ++ sessionId ++ "\n\n## " ++ icon "active" ++
    " Progress\n\n- [ ] Task started\n"

/-- Outcome of the `devlog_workspace_claim` handler: the success flag of the
returned status card, the conflict error carried on failure, and the
post-call lease store, workspace file, tracking flag and heartbeat flag. -/
structure ClaimOut where
  ok : Bool
  conflict : Option LockError
  store : Option Lease
  ws : Option WFile
  tracking : Bool
  hb : Bool
deriving DecidableEq

/-- The `devlog_workspace_claim` handler (`src/tools/workspace-tools.ts`
lines 32-146): tries to acquire the lock; on failure returns a Lock Conflict
error result before any workspace content is written; on success writes the
workspace file with fresh metadata, enables tool tracking and starts the
heartbeat. -/
def claimHandler (now ttl : Nat) (agentId sessionId task : String) (force : Bool)
    (store : Option Lease) (ws : Option WFile) (tracking hb : Bool) : ClaimOut :=
  match acquireLock now ttl agentId sessionId force store with
  | (Except.error e, store2) => ⟨false, some e, store2, ws, tracking, hb⟩
  | (Except.ok l, store2) =>
      let md0 := createInitialMetadata now agentId sessionId
      let md := { md0 with lock_acquired := some l.acquired_at, lock_expires := some l.expires_at }
      ⟨true, none, store2, some ⟨agentId, some md, workspaceBody agentId sessionId task⟩, true, true⟩

/-- Events of the heartbeat scheduler: a timer tick at wall-clock time `t`,
a `Stop()` call, and a `Start(agentId)` call. -/
inductive HBEvent where
  | tick (t : Nat)
  | stop
  | start (agentId sessionId : String)
deriving DecidableEq

/-- Whether an event is a `Start` call. -/
def HBEvent.isStart : HBEvent → Bool
  | HBEvent.start _ _ => true
  | _ => false

/-- Modelled from the spec: the state of the missing
`src/utils/heartbeat-manager.ts` (spec section 4.2) together with the lease
store it renews against: whether the timer is running, the owning agent and
session it renews for, and the shared lease store. -/
structure HBSys where
  running : Bool
  hbAgent : String
  hbSession : String
  store : Option Lease
deriving DecidableEq

/-- Modelled from the spec: one step of the heartbeat scheduler (spec
section 4.2).  A tick while running re-claims with the same agent and
session id, extending `expires_at`; if the lease has been superseded or
deleted the scheduler stops itself; `Stop()` cancels the timer
synchronously, so a tick on a stopped scheduler performs no write at all;
`Start` (re)arms the timer for the given identity. -/
def hbStep (ttl : Nat) (s : HBSys) : HBEvent → HBSys
  | HBEvent.tick t =>
      if s.running then
        match s.store with
        | some l =>
            if l.agent_id = s.hbAgent ∧ l.session_id = s.hbSession then
              { s with store := (acquireLock t ttl s.hbAgent s.hbSession false s.store).2 }
            else { s with running := false }
        | none => { s with running := false }
      else s
  | HBEvent.stop => { s with running := false }
  | HBEvent.start a sid => { s with running := true, hbAgent := a, hbSession := sid }

/-- Wall-clock duration in whole minutes between two natural timestamps,
computed through `calculateDuration` as the dump handler does
(`src/tools/workspace-tools.ts` line 377). -/
def durMinutes (a b : Nat) : Nat :=
  (calculateDuration (a : Int) (b : Int)).toNat

/-- Events of one session of the session metadata engine: wall-clock time
advancing by `d` milliseconds with tool activity, the same without activity,
the engine writing current timing into the embedded metadata, and the
dump-time finalization that sets `session.end` and recomputes
`total_minutes` (`src/tools/workspace-tools.ts` lines 374-384). -/
inductive SessEvent where
  | activity (d : Nat)
  | idle (d : Nat)
  | updateTiming
  | finalize
deriving DecidableEq

/-- Modelled from the spec: the running state of one claim episode (spec
sections 3 and 4.3): session start time, current wall-clock time, the
milliseconds spent with recorded tool activity, and the currently embedded
metadata. -/
structure SessState where
  startT : Nat
  now : Nat
  activeMs : Nat
  md : SessionMetadata
deriving DecidableEq

/-- Initial session state at claim time: zeroed counters, `start = now`. -/
def sessInit (t : Nat) (agentId sessionId : String) : SessState :=
  ⟨t, t, 0, createInitialMetadata t agentId sessionId⟩

/-- Modelled from the spec: one step of a session (spec section 4.3).
`active_minutes` accumulates only while the tool tracker reports activity;
`total_minutes` is the wall-clock span of the session; finalization at dump
time sets `session.end` and recomputes `total_minutes` via
`calculateDuration` while leaving `active_minutes` as last written
(`src/tools/workspace-tools.ts` lines 374-384). -/
def sessStep (st : SessState) : SessEvent → SessState
  | SessEvent.activity d => { st with now := st.now + d, activeMs := st.activeMs + d }
  | SessEvent.idle d => { st with now := st.now + d }
  | SessEvent.updateTiming =>
      { st with md := { st.md with
          total_minutes := durMinutes st.startT st.now,
          active_minutes := durMinutes 0 st.activeMs } }
  | SessEvent.finalize =>
      { st with md := { st.md with
          endT := some st.now,
          total_minutes := durMinutes st.startT st.now } }

/-- Dump-time finalization of the embedded metadata
(`src/tools/workspace-tools.ts` lines 374-384): sets `session.end := now`
and `total_minutes := calculateDuration(session.start, session.end)`. -/
def finalizeMd (now : Nat) (md : SessionMetadata) : SessionMetadata :=
  { md with endT := some now, total_minutes := durMinutes md.startT now }

/-- The characters of the literal `" Progress"` of the regular expression
`## .* Progress` used by the dump handler (`src/tools/workspace-tools.ts`
line 484). -/
def progressPat : List Char :=
  [' ', 'P', 'r', 'o', 'g', 'r', 'e', 's', 's']

/-- The characters of the literal `"## "` opening the same pattern. -/
def headingMark : List Char :=
  ['#', '#', ' ']

/-- The current line of a character stream: everything before the first
newline (a JS `.` never matches a newline). -/
def lineTake (cs : List Char) : List Char :=
  cs.takeWhile (fun c => c ≠ '\n')

/-- Greedy end of a match of `## .* Progress` within the current `line`:
the largest `k` not exceeding the bound such that the first `k` characters
end in `" Progress"` and cover at least the 12 characters of
`"## " ++ " Progress"`. -/
def greedyEndAux (line : List Char) : Nat → Option Nat
  | 0 => none
  | Nat.succ k =>
      if 12 ≤ k + 1 ∧ progressPat.isSuffixOf (line.take (k + 1)) = true then some (k + 1)
      else greedyEndAux line k

/-- Length of the match of the regular expression `## .* Progress` starting
at the head of `cs`, if any: the stream must open with `"## "` and the
greedy `.*` extends to the last `" Progress"` of the current line. -/
def matchAt (cs : List Char) : Option Nat :=
  if cs.take 3 = headingMark then greedyEndAux (lineTake cs) (lineTake cs).length
  else none

/-- JS `String.replace` with a non-global regex: replaces the leftmost match
by `repl`, or returns the input unchanged if there is no match. -/
def scanReplace (repl : List Char) : List Char → List Char
  | [] => []
  | c :: rest =>
      match matchAt (c :: rest) with
      | some k => repl ++ (c :: rest).drop k
      | none => c :: scanReplace repl rest

/-- The replacement text of the dump handler (`src/tools/workspace-tools.ts`
line 485): the rewritten Progress heading referencing the dumped session
file. -/
def newHeading (filename : String) : String :=
  "## " ++ icon "active" ++ " Progress\n\n" ++ icon "tag" ++
    " Session dumped to: [" ++ filename ++ "](daily/" ++ filename ++ ")\n"

/-- `content.replace(/## .* Progress/, newHeading)` of the dump handler
(`src/tools/workspace-tools.ts` lines 483-487). -/
def replaceProgress (filename : String) (body : String) : String :=
  String.mk (scanReplace (newHeading filename).data body.data)

/-- Filesystem and process effects the dump handler performs, in program
order (`src/tools/workspace-tools.ts` lines 370-488). -/
inductive Effect where
  | flushT
  | writeWsMeta
  | writeDaily (name : String)
  | writeWs
  | releaseL
  | disableTrack
  | stopHB
  | unlinkWs
deriving DecidableEq

/-- Process-wide state the dump handler acts on: the lease store, the tool
tracking flag, the heartbeat flag, the workspace file and the daily log
directory (filename/content pairs, most recent first). -/
structure SysState where
  store : Option Lease
  tracking : Bool
  hbRunning : Bool
  wsFile : Option WFile
  daily : List (String × String)
deriving DecidableEq

/-- The daily session log content assembled by the dump handler
(`src/tools/workspace-tools.ts` lines 405-465): dump reason, finalized
metadata when present, and the workspace content at time of dump. -/
def sessionContent (reason : String) (md : Option SessionMetadata) (body : String) : String :=
  "# Session dump\n**Reason**: " ++ reason ++
    (match md with
     | some m => "\nduration_minutes: " ++ toString m.total_minutes
     | none => "") ++
    "\n\n## Workspace Content at Time of Dump\n\n" ++ body

/-- Schema default of the `keepActive` input of `devlog_workspace_dump`
(`src/tools/workspace-tools.ts` line 343). -/
def dumpKeepActiveDefault : Bool :=
  true

/-- The `devlog_workspace_dump` handler (`src/tools/workspace-tools.ts`
lines 345-533).  With a workspace present it flushes tool tracking into the
metadata and, only when a metadata header exists, finalizes it and writes it
back (lines 374-384 run under `if (metadata)`); it then writes the session
log to the daily directory, and either (keepActive = false) releases the lock,
disables tracking, stops the heartbeat and deletes the workspace file, or
(keepActive = true) rewrites the workspace from the content read at entry
with the Progress heading replaced.  Returns the new system state, the
tracker after the flush and the effect trace in program order. -/
def dumpHandler (now : Nat) (reason filename : String) (keepActive : Bool)
    (tracker : ToolTracker) (st : SysState) : SysState × ToolTracker × List Effect :=
  match st.wsFile with
  | none => (st, tracker, [])
  | some ws =>
      let flushed := flushTracker tracker
      let ws1 : WFile :=
        { ws with header := ws.header.map fun m =>
            { m with tool_usage := mergeCounts flushed.1 m.tool_usage } }
      let ws2 : WFile :=
        match ws1.header with
        | some m => { ws1 with header := some (finalizeMd now m) }
        | none => ws1
      let daily2 := (filename, sessionContent reason ws2.header ws.body) :: st.daily
      let metaEff : List Effect := if ws1.header.isSome then [Effect.writeWsMeta] else []
      if keepActive then
        ({ st with
            wsFile := some { ws with body := replaceProgress filename ws.body },
            daily := daily2 },
         flushed.2,
         Effect.flushT :: (metaEff ++ [Effect.writeDaily filename, Effect.writeWs]))
      else
        ({ st with
            store := (releaseLock ws.agent st.store).2,
            tracking := false,
            hbRunning := false,
            wsFile := none,
            daily := daily2 },
         flushed.2,
         Effect.flushT :: (metaEff ++ [Effect.writeDaily filename,
          Effect.releaseL, Effect.disableTrack, Effect.stopHB, Effect.unlinkWs]))

/-- Claim C3: for every prior lease state (absent, expired, or live and owned
by any agent), `Claim` with `force = true` succeeds and writes a new lease
whose `agent_id`, `session_id`, `acquired_at` and `expires_at` all come from
the new claim, with `acquired_at = now` and `expires_at = now + ttl`. -/
theorem force_claim_always_succeeds (now ttl : Nat) (agentId sessionId : String)
    (store : Option Lease) :
    acquireLock now ttl agentId sessionId true store =
      (Except.ok (⟨agentId, sessionId, now, now + ttl⟩ : Lease),
       some (⟨agentId, sessionId, now, now + ttl⟩ : Lease)) := by
  cases store <;> simp [acquireLock]

/-- Claim C4: `Check` returns the stored lease exactly when `now` is before
its `expires_at`; once `now >= expires_at` it returns nothing even though the
record still exists, and it returns nothing when no record exists. -/
theorem check_returns_iff_live (now : Nat) (store : Option Lease) :
    (∀ l : Lease, checkLock now store = some l ↔ store = some l ∧ now < l.expires_at)
    ∧ (∀ l : Lease, store = some l → l.expires_at ≤ now → checkLock now store = none)
    ∧ (store = none → checkLock now store = none) := by
  refine ⟨?_, ?_, ?_⟩
  · intro l
    constructor
    · intro hc
      cases store with
      | none => simp [checkLock] at hc
      | some l2 =>
          by_cases h : now < l2.expires_at
          · simp [checkLock, h] at hc
            subst hc
            exact ⟨rfl, h⟩
          · simp [checkLock, h] at hc
    · rintro ⟨hs, hl⟩
      subst hs
      simp [checkLock, hl]
  · intro l hs hexp
    subst hs
    simp [checkLock]
    omega
  · intro h
    subst h
    rfl

/-- Closed witness for C4: a lease with expiry 30 is returned at time 5 and
suppressed at time 30. -/
theorem check_returns_iff_live_witness :
    checkLock 5 (some ⟨"A", "s1", 0, 30⟩) = some ⟨"A", "s1", 0, 30⟩
    ∧ checkLock 30 (some ⟨"A", "s1", 0, 30⟩) = none :=
  ⟨((check_returns_iff_live 5 (some ⟨"A", "s1", 0, 30⟩)).1 ⟨"A", "s1", 0, 30⟩).mpr
      ⟨rfl, by decide⟩,
   (check_returns_iff_live 30 (some ⟨"A", "s1", 0, 30⟩)).2.1 ⟨"A", "s1", 0, 30⟩ rfl
      (by decide)⟩

/-- Claim C5: `Release` deletes the lease record exactly when its `agent_id`
matches the caller; for every non-owner the call still succeeds and leaves
the store unchanged. -/
theorem release_owner_only (agentId : String) (store : Option Lease) :
    (releaseLock agentId store).1 = true
    ∧ (∀ l : Lease, store = some l → l.agent_id = agentId → (releaseLock agentId store).2 = none)
    ∧ (∀ l : Lease, store = some l → l.agent_id ≠ agentId → (releaseLock agentId store).2 = store)
    ∧ (store = none → (releaseLock agentId store).2 = none) := by
  refine ⟨?_, ?_, ?_, ?_⟩
  · cases store with
    | none => rfl
    | some l => by_cases h : l.agent_id = agentId <;> simp [releaseLock, h]
  · intro l hs h
    subst hs
    simp [releaseLock, h]
  · intro l hs h
    subst hs
    simp [releaseLock, h]
  · intro h
    subst h
    rfl

/-- Closed witness for C5: an agent that never held the lease releases with
success and no state change; the owner's release deletes the record. -/
theorem release_owner_only_witness :
    (releaseLock "B" (some ⟨"A", "s1", 0, 30⟩)).2 = some ⟨"A", "s1", 0, 30⟩
    ∧ (releaseLock "A" (some ⟨"A", "s1", 0, 30⟩)).2 = none
    ∧ (releaseLock "B" (some ⟨"A", "s1", 0, 30⟩)).1 = true :=
  ⟨(release_owner_only "B" (some ⟨"A", "s1", 0, 30⟩)).2.2.1 ⟨"A", "s1", 0, 30⟩ rfl
      (by decide),
   (release_owner_only "A" (some ⟨"A", "s1", 0, 30⟩)).2.1 ⟨"A", "s1", 0, 30⟩ rfl rfl,
   (release_owner_only "B" (some ⟨"A", "s1", 0, 30⟩)).1⟩

/-- Claim C6: `CalculateDuration` equals the wall-clock difference in whole
minutes rounded down when `endT >= startT`, equals zero when `endT < startT`,
and never returns a negative value; being a total function of its two
arguments it never crashes and always returns the same value for the same
(ordered or mis-ordered) timestamp pair. -/
theorem calculateDuration_props (s e : Int) :
    (s ≤ e → calculateDuration s e = (e - s) / 60000)
    ∧ (e < s → calculateDuration s e = 0)
    ∧ 0 ≤ calculateDuration s e := by
  refine ⟨?_, ?_, ?_⟩
  · intro h
    have h1 : (0 : Int) ≤ (e - s) / 60000 := Int.ediv_nonneg (by omega) (by norm_num)
    unfold calculateDuration
    exact max_eq_left h1
  · intro h
    have h1 : (e - s) / 60000 ≤ (0 : Int) := by omega
    unfold calculateDuration
    exact max_eq_right h1
  · unfold calculateDuration
    exact le_max_right _ _

/-- Closed witness for C6: 150 seconds floor to 2 minutes, and a mis-ordered
pair clamps to zero. -/
theorem calculateDuration_props_witness :
    calculateDuration 0 150000 = 2 ∧ calculateDuration 150000 0 = 0 := by
  refine ⟨?_, ?_⟩
  · have h := (calculateDuration_props 0 150000).1 (by norm_num)
    rw [h]
    decide
  · exact (calculateDuration_props 150000 0).2.1 (by norm_num)

/-- Claim C2: when a non-expired lease owned by a different agent exists and
`force = false`, the `devlog_workspace_claim` handler returns a Lock Conflict
error result carrying the owning agent's id and the lease expiry, performs no
write to the workspace file, and changes neither the store nor the tracking
or heartbeat flags. -/
theorem claim_conflict_no_write (now ttl : Nat) (agentId sessionId task : String)
    (old : Lease) (ws : Option WFile) (tracking hb : Bool)
    (hlive : now < old.expires_at) (hother : old.agent_id ≠ agentId) :
    claimHandler now ttl agentId sessionId task false (some old) ws tracking hb =
      ⟨false, some (LockError.Conflict old.agent_id old.expires_at), some old, ws, tracking, hb⟩ := by
  simp [claimHandler, acquireLock, hlive, hother]

/-- Closed witness for C2: agent B's non-forced claim at time 5 against A's
live lease is refused with A's id and expiry, and nothing is written. -/
theorem claim_conflict_no_write_witness :
    claimHandler 5 30 "B" "s2" "task" false (some ⟨"A", "s1", 0, 30⟩) none false false =
      ⟨false, some (LockError.Conflict "A" 30), some ⟨"A", "s1", 0, 30⟩, none, false, false⟩ :=
  claim_conflict_no_write 5 30 "B" "s2" "task" ⟨"A", "s1", 0, 30⟩ none false false
    (by decide) (by decide)

theorem acquireLock_conflict_of_live (ttl : Nat) (l : Lease) (d : ClaimCall)
    (hag : d.agent ≠ l.agent_id) (ht : d.time < l.expires_at) :
    acquireLock d.time ttl d.agent d.session false (some l) =
      (Except.error (LockError.Conflict l.agent_id l.expires_at), some l) := by
  simp [acquireLock, ht, Ne.symm hag]

theorem runClaims_all_conflict (ttl : Nat) (l : Lease) (cs : List ClaimCall)
    (hag : ∀ d ∈ cs, d.agent ≠ l.agent_id) (ht : ∀ d ∈ cs, d.time < l.expires_at) :
    runClaims ttl (some l) cs =
      (cs.map fun _ => Except.error (LockError.Conflict l.agent_id l.expires_at), some l) := by
  induction cs with
  | nil => rfl
  | cons d ds ih =>
      have h1 := acquireLock_conflict_of_live ttl l d (hag d (by simp)) (ht d (by simp))
      have h2 := ih (fun x hx => hag x (by simp [hx])) (fun x hx => ht x (by simp [hx]))
      simp [runClaims, h1, h2]

/-- Claim C1: against an initially empty lease store, in every sequence of
non-forced `Claim` calls the first call succeeds with a fresh lease and every
later call by a distinct agent issued before that lease's expiry receives
`LockConflict`, the store still holding the single winning lease (the store
is a single `Option Lease` record, so at most one non-expired lease ever
exists in it). -/
theorem first_claim_wins (ttl : Nat) (c : ClaimCall) (cs : List ClaimCall)
    (hdistinct : ∀ d ∈ cs, d.agent ≠ c.agent)
    (hlive : ∀ d ∈ cs, d.time < c.time + ttl) :
    (runClaims ttl none (c :: cs)).1 =
      Except.ok (⟨c.agent, c.session, c.time, c.time + ttl⟩ : Lease)
        :: cs.map (fun _ => Except.error (LockError.Conflict c.agent (c.time + ttl)))
    ∧ (runClaims ttl none (c :: cs)).2 =
        some (⟨c.agent, c.session, c.time, c.time + ttl⟩ : Lease) := by
  have hrest := runClaims_all_conflict ttl ⟨c.agent, c.session, c.time, c.time + ttl⟩ cs
    (fun d hd => hdistinct d hd) (fun d hd => hlive d hd)
  constructor <;> simp [runClaims, acquireLock, hrest]

/-- Closed witness for C1: agent A claims at time 0 with ttl 10; agent B's
claim at time 5 receives the conflict naming A, and A's lease survives. -/
theorem first_claim_wins_witness :
    (runClaims 10 none [⟨"A", "s1", 0⟩, ⟨"B", "s2", 5⟩]).1 =
      [Except.ok (⟨"A", "s1", 0, 10⟩ : Lease),
       Except.error (LockError.Conflict "A" 10)]
    ∧ (runClaims 10 none [⟨"A", "s1", 0⟩, ⟨"B", "s2", 5⟩]).2 =
        some (⟨"A", "s1", 0, 10⟩ : Lease) := by
  have h := first_claim_wins 10 ⟨"A", "s1", 0⟩ [⟨"B", "s2", 5⟩] (by decide) (by decide)
  exact ⟨by simpa using h.1, h.2⟩

theorem hbStep_not_running (ttl : Nat) (s : HBSys) (e : HBEvent)
    (hr : s.running = false) (he : e.isStart = false) :
    hbStep ttl s e = s := by
  cases e with
  | tick t => simp [hbStep, hr]
  | stop => cases s; simp_all [hbStep]
  | start a sid => simp [HBEvent.isStart] at he

theorem hb_frozen (ttl : Nat) (evs : List HBEvent) :
    ∀ s : HBSys, s.running = false → (∀ e ∈ evs, e.isStart = false) →
      evs.foldl (hbStep ttl) s = s := by
  induction evs with
  | nil => intro s _ _; rfl
  | cons e es ih =>
      intro s hr he
      have h1 : hbStep ttl s e = s := hbStep_not_running ttl s e hr (he e (by simp))
      calc (e :: es).foldl (hbStep ttl) s = es.foldl (hbStep ttl) (hbStep ttl s e) := rfl
        _ = es.foldl (hbStep ttl) s := by rw [h1]
        _ = s := ih s hr (fun x hx => he x (by simp [hx]))

/-- Claim C7: while the lease is owned by this agent, a heartbeat tick
strictly increases the stored `expires_at` (renewal keeps agent and session
id); and after `Stop()` returns, no sequence of further ticks (absent a new
`Start`) ever changes the lease store: no renewal write occurs after
`Stop()`. -/
theorem heartbeat_extends_and_stop_halts (ttl : Nat) (s : HBSys) (l : Lease) (t : Nat)
    (hrun : s.running = true) (hstore : s.store = some l)
    (hag : l.agent_id = s.hbAgent) (hsess : l.session_id = s.hbSession)
    (hexp : l.expires_at = l.acquired_at + ttl) (ht : l.acquired_at < t) :
    (∃ lNew : Lease, (hbStep ttl s (HBEvent.tick t)).store = some lNew
        ∧ l.expires_at < lNew.expires_at
        ∧ lNew.agent_id = l.agent_id ∧ lNew.session_id = l.session_id)
    ∧ (∀ (s2 : HBSys) (evs : List HBEvent), (∀ e ∈ evs, e.isStart = false) →
        (evs.foldl (hbStep ttl) (hbStep ttl s2 HBEvent.stop)).store = s2.store) := by
  constructor
  · refine ⟨⟨s.hbAgent, s.hbSession, t, t + ttl⟩, ?_, ?_, ?_, ?_⟩
    · simp [hbStep, hrun, hstore, hag, hsess, acquireLock]
    · show l.expires_at < t + ttl
      rw [hexp]
      omega
    · exact hag.symm
    · exact hsess.symm
  · intro s2 evs he
    have h1 : hbStep ttl s2 HBEvent.stop = { s2 with running := false } := rfl
    rw [h1, hb_frozen ttl evs { s2 with running := false } rfl he]

/-- Closed witness for C7: a tick at time 10 renews A's lease past its old
expiry 30, and after a stop a later tick leaves the store untouched. -/
theorem heartbeat_extends_and_stop_halts_witness :
    (∃ lNew : Lease,
        (hbStep 30 ⟨true, "A", "s1", some ⟨"A", "s1", 0, 30⟩⟩ (HBEvent.tick 10)).store = some lNew
        ∧ 30 < lNew.expires_at ∧ lNew.agent_id = "A" ∧ lNew.session_id = "s1")
    ∧ (∀ (s2 : HBSys) (evs : List HBEvent), (∀ e ∈ evs, e.isStart = false) →
        (evs.foldl (hbStep 30) (hbStep 30 s2 HBEvent.stop)).store = s2.store) :=
  heartbeat_extends_and_stop_halts 30 ⟨true, "A", "s1", some ⟨"A", "s1", 0, 30⟩⟩
    ⟨"A", "s1", 0, 30⟩ 10 rfl rfl rfl rfl (by decide) (by decide)

theorem sumCounts_cons (k : String) (v : Nat) (rest : List (String × Nat)) :
    sumCounts ((k, v) :: rest) = v + sumCounts rest := by
  simp [sumCounts]

theorem sumCounts_bump (name : String) (cs : List (String × Nat)) :
    sumCounts (bump name cs) = sumCounts cs + 1 := by
  induction cs with
  | nil => rfl
  | cons kv rest ih =>
      cases kv with
      | mk k v =>
          by_cases h : k = name
          · simp [bump, h, sumCounts_cons]
            omega
          · simp [bump, h, sumCounts_cons, ih]
            omega

theorem recordAll_enabled_counts (names : List String) :
    ∀ t : ToolTracker, t.enabled = true →
      (recordAll names t).enabled = true
      ∧ sumCounts (recordAll names t).counters = sumCounts t.counters + names.length := by
  induction names with
  | nil =>
      intro t ht
      exact ⟨ht, rfl⟩
  | cons n ns ih =>
      intro t ht
      have hrt : recordTool n t = { t with counters := bump n t.counters } := by
        simp [recordTool, ht]
      have hstep : recordAll (n :: ns) t = recordAll ns (recordTool n t) := rfl
      have h2 := ih { t with counters := bump n t.counters } ht
      refine ⟨by rw [hstep, hrt]; exact h2.1, ?_⟩
      rw [hstep, hrt, h2.2]
      simp [sumCounts_bump]
      omega

theorem sumCounts_addCount (name : String) (n : Nat) (cs : List (String × Nat)) :
    sumCounts (addCount name n cs) = sumCounts cs + n := by
  induction cs with
  | nil => simp [addCount, sumCounts_cons, sumCounts]
  | cons kv rest ih =>
      cases kv with
      | mk k v =>
          by_cases h : k = name
          · simp [addCount, h, sumCounts_cons]
            omega
          · simp [addCount, h, sumCounts_cons, ih]
            omega

theorem sumCounts_mergeCounts (snap : List (String × Nat)) :
    ∀ usage : List (String × Nat),
      sumCounts (mergeCounts snap usage) = sumCounts usage + sumCounts snap := by
  induction snap with
  | nil =>
      intro u
      simp [mergeCounts, sumCounts]
  | cons kv rest ih =>
      cases kv with
      | mk k v =>
          intro u
          have hstep : mergeCounts ((k, v) :: rest) u = mergeCounts rest (addCount k v u) := rfl
          rw [hstep, ih, sumCounts_addCount, sumCounts_cons]
          omega

/-- Claim C8: `Flush` drains the in-memory tool counters into a snapshot and
resets every counter to zero; merging the snapshot into fresh metadata via
`Update` and reading it back with `Extract` yields `tool_usage` counts
summing to the number of recorded calls; and the dump handler flushes
unconditionally, as its first effect, whenever a workspace is present. -/
theorem flush_drains_and_dump_flushes_first (names : List String) :
    sumCounts (flushTracker (recordAll names ⟨true, []⟩)).1 = names.length
    ∧ (flushTracker (recordAll names ⟨true, []⟩)).2.counters = []
    ∧ (∀ (f : WFile) (now : Nat) (agentId sessionId : String),
        (extractMetadata (updateMetadata
            { createInitialMetadata now agentId sessionId with
                tool_usage := mergeCounts (flushTracker (recordAll names ⟨true, []⟩)).1
                  (createInitialMetadata now agentId sessionId).tool_usage } f)).map
          (fun m => sumCounts m.tool_usage) = some names.length)
    ∧ (∀ (now : Nat) (reason filename : String) (keepActive : Bool)
        (tracker : ToolTracker) (st : SysState) (ws : WFile), st.wsFile = some ws →
        ((dumpHandler now reason filename keepActive tracker st).2.1).counters = []
        ∧ ((dumpHandler now reason filename keepActive tracker st).2.2).head? =
            some Effect.flushT) := by
  have hsum : sumCounts (flushTracker (recordAll names ⟨true, []⟩)).1 = names.length := by
    have h := recordAll_enabled_counts names ⟨true, []⟩ rfl
    simpa [flushTracker, sumCounts] using h.2
  refine ⟨hsum, rfl, ?_, ?_⟩
  · intro f now agentId sessionId
    have hmerge : sumCounts (mergeCounts (flushTracker (recordAll names ⟨true, []⟩)).1
        (createInitialMetadata now agentId sessionId).tool_usage) = names.length := by
      rw [sumCounts_mergeCounts, hsum]
      simp [createInitialMetadata, sumCounts]
    simp [extractMetadata, updateMetadata, hmerge]
  · intro now reason filename keepActive tracker st ws hws
    cases keepActive <;> simp [dumpHandler, hws, flushTracker]

/-- Closed witness for C8: five recorded tool calls flush to a snapshot
summing to five, the counters reset, and `Extract` after `Update` reports
five; a dump on a present workspace flushes first. -/
theorem flush_drains_and_dump_flushes_first_witness :
    sumCounts (flushTracker (recordAll ["a", "b", "a", "c", "b"] ⟨true, []⟩)).1 = 5
    ∧ (flushTracker (recordAll ["a", "b", "a", "c", "b"] ⟨true, []⟩)).2.counters = []
    ∧ (extractMetadata (updateMetadata
          { createInitialMetadata 0 "A" "s1" with
              tool_usage := mergeCounts
                (flushTracker (recordAll ["a", "b", "a", "c", "b"] ⟨true, []⟩)).1
                (createInitialMetadata 0 "A" "s1").tool_usage } ⟨"A", none, ""⟩)).map
        (fun m => sumCounts m.tool_usage) = some 5
    ∧ ((dumpHandler 9 "done" "f.md" true ⟨true, [("a", 2)]⟩
          ⟨none, true, true, some ⟨"A", none, "body"⟩, []⟩).2.1).counters = [] := by
  have h := flush_drains_and_dump_flushes_first ["a", "b", "a", "c", "b"]
  exact ⟨h.1, h.2.1, h.2.2.1 ⟨"A", none, ""⟩ 0 "A" "s1",
    (h.2.2.2 9 "done" "f.md" true ⟨true, [("a", 2)]⟩
      ⟨none, true, true, some ⟨"A", none, "body"⟩, []⟩ ⟨"A", none, "body"⟩ rfl).1⟩

theorem durMinutes_eq (a b : Nat) : durMinutes a b = (b - a) / 60000 := by
  unfold durMinutes calculateDuration
  rcases max_cases (((b : Int) - (a : Int)) / 60000) 0 with ⟨heq, hge⟩ | ⟨heq, hlt⟩ <;>
    rw [heq] <;> omega

theorem sessStep_inv (st : SessState) (e : SessEvent)
    (h1 : st.startT ≤ st.now) (h2 : st.activeMs ≤ st.now - st.startT)
    (h3 : st.md.active_minutes ≤ (st.now - st.startT) / 60000)
    (h4 : st.md.active_minutes ≤ st.md.total_minutes) :
    (sessStep st e).startT ≤ (sessStep st e).now
    ∧ (sessStep st e).activeMs ≤ (sessStep st e).now - (sessStep st e).startT
    ∧ (sessStep st e).md.active_minutes ≤ ((sessStep st e).now - (sessStep st e).startT) / 60000
    ∧ (sessStep st e).md.active_minutes ≤ (sessStep st e).md.total_minutes := by
  cases e with
  | activity d =>
      refine ⟨by simp [sessStep]; omega, by simp [sessStep]; omega, ?_, by simpa [sessStep] using h4⟩
      simp only [sessStep]
      exact le_trans h3 (Nat.div_le_div_right (by omega))
  | idle d =>
      refine ⟨by simp [sessStep]; omega, by simp [sessStep]; omega, ?_, by simpa [sessStep] using h4⟩
      simp only [sessStep]
      exact le_trans h3 (Nat.div_le_div_right (by omega))
  | updateTiming =>
      refine ⟨h1, h2, ?_, ?_⟩ <;> simp only [sessStep, durMinutes_eq] <;>
        exact Nat.div_le_div_right (by omega)
  | finalize =>
      exact ⟨h1, h2, h3, by simpa only [sessStep, durMinutes_eq] using h3⟩

theorem sessFoldl_inv (evs : List SessEvent) :
    ∀ st : SessState, st.startT ≤ st.now → st.activeMs ≤ st.now - st.startT →
      st.md.active_minutes ≤ (st.now - st.startT) / 60000 →
      st.md.active_minutes ≤ st.md.total_minutes →
      (evs.foldl sessStep st).startT ≤ (evs.foldl sessStep st).now
      ∧ (evs.foldl sessStep st).activeMs ≤ (evs.foldl sessStep st).now - (evs.foldl sessStep st).startT
      ∧ (evs.foldl sessStep st).md.active_minutes
          ≤ ((evs.foldl sessStep st).now - (evs.foldl sessStep st).startT) / 60000
      ∧ (evs.foldl sessStep st).md.active_minutes ≤ (evs.foldl sessStep st).md.total_minutes := by
  induction evs with
  | nil =>
      intro st h1 h2 h3 h4
      exact ⟨h1, h2, h3, h4⟩
  | cons e es ih =>
      intro st h1 h2 h3 h4
      have hs := sessStep_inv st e h1 h2 h3 h4
      exact ih (sessStep st e) hs.1 hs.2.1 hs.2.2.1 hs.2.2.2

/-- Claim C9: in every session state reachable from `CreateInitial` by any
sequence of activity, idle, timing-update and dump-finalization events, the
embedded metadata satisfies `active_minutes <= total_minutes`; activity time
accumulates only on tool-tracker activity and `total_minutes` is the
wall-clock span of the session. -/
theorem session_active_le_total (evs : List SessEvent) (t : Nat) (agentId sessionId : String) :
    (evs.foldl sessStep (sessInit t agentId sessionId)).md.active_minutes
      ≤ (evs.foldl sessStep (sessInit t agentId sessionId)).md.total_minutes := by
  have h := sessFoldl_inv evs (sessInit t agentId sessionId)
    (le_refl t) (by simp [sessInit]) (by simp [sessInit, createInitialMetadata])
    (by simp [sessInit, createInitialMetadata])
  exact h.2.2.2

theorem takeAll_append (a b : List Char) : (a ++ b).take a.length = a := by
  induction a with
  | nil => rfl
  | cons c cs ih => simp [ih]

theorem dropAll_append (a b : List Char) : (a ++ b).drop a.length = b := by
  induction a with
  | nil => rfl
  | cons c cs ih => simp [ih]

theorem takeWhile_append_all (p : Char → Bool) (b : List Char) :
    ∀ a : List Char, (∀ x ∈ a, p x = true) →
      (a ++ b).takeWhile p = a ++ b.takeWhile p := by
  intro a
  induction a with
  | nil => intro _; rfl
  | cons c cs ih =>
      intro h
      have hc : p c = true := h c (by simp)
      simp [List.takeWhile_cons, hc, ih (fun x hx => h x (by simp [hx]))]

theorem isPrefixOf_append_self (a b : List Char) : a.isPrefixOf (a ++ b) = true := by
  induction a with
  | nil => simp [List.isPrefixOf]
  | cons c cs ih => simp [List.isPrefixOf, ih]

theorem isSuffixOf_append_self (a b : List Char) : b.isSuffixOf (a ++ b) = true := by
  unfold List.isSuffixOf
  rw [List.reverse_append]
  exact isPrefixOf_append_self b.reverse a.reverse

theorem matchAt_head_ne (c : Char) (rest : List Char) (hc : c ≠ '#') :
    matchAt (c :: rest) = none := by
  simp [matchAt, headingMark, hc]

theorem scanReplace_skip (repl rest : List Char) :
    ∀ pre : List Char, (∀ c ∈ pre, c ≠ '#') →
      scanReplace repl (pre ++ rest) = pre ++ scanReplace repl rest := by
  intro pre
  induction pre with
  | nil => intro _; rfl
  | cons c cs ih =>
      intro h
      have hm : matchAt (c :: (cs ++ rest)) = none :=
        matchAt_head_ne c (cs ++ rest) (h c (by simp))
      calc scanReplace repl ((c :: cs) ++ rest)
          = scanReplace repl (c :: (cs ++ rest)) := rfl
        _ = c :: scanReplace repl (cs ++ rest) := by
            simp only [scanReplace, hm]
        _ = c :: (cs ++ scanReplace repl rest) := by
            rw [ih (fun x hx => h x (by simp [hx]))]
        _ = (c :: cs) ++ scanReplace repl rest := rfl

theorem lineTake_progress (mid post : List Char) (hmid : '\n' ∉ mid)
    (hpost : post = [] ∨ ∃ t2, post = '\n' :: t2) :
    lineTake (headingMark ++ mid ++ progressPat ++ post) = headingMark ++ mid ++ progressPat := by
  unfold lineTake
  rw [show headingMark ++ mid ++ progressPat ++ post
      = headingMark ++ (mid ++ (progressPat ++ post)) by simp [List.append_assoc]]
  rw [takeWhile_append_all _ _ headingMark (by decide)]
  rw [takeWhile_append_all _ _ mid ?hmidall]
  case hmidall =>
    intro x hx
    simp only [decide_eq_true_eq]
    intro he
    exact hmid (he ▸ hx)
  rw [takeWhile_append_all _ _ progressPat (by decide)]
  rcases hpost with h | ⟨t2, h⟩ <;> subst h <;> simp [List.append_assoc]

theorem matchAt_progress (mid post : List Char) (hmid : '\n' ∉ mid)
    (hpost : post = [] ∨ ∃ t2, post = '\n' :: t2) :
    matchAt (headingMark ++ mid ++ progressPat ++ post) = some (mid.length + 12) := by
  have hline := lineTake_progress mid post hmid hpost
  have htake : (headingMark ++ mid ++ progressPat ++ post).take 3 = headingMark := by
    have h := takeAll_append headingMark (mid ++ (progressPat ++ post))
    rw [show headingMark.length = 3 from rfl] at h
    rw [show headingMark ++ mid ++ progressPat ++ post
        = headingMark ++ (mid ++ (progressPat ++ post)) by simp [List.append_assoc]]
    exact h
  have hlen : (headingMark ++ mid ++ progressPat).length = mid.length + 12 := by
    simp only [List.length_append]
    have h1 : headingMark.length = 3 := rfl
    have h2 : progressPat.length = 9 := rfl
    omega
  have htl : (headingMark ++ mid ++ progressPat).take (mid.length + 12)
      = headingMark ++ mid ++ progressPat := by
    rw [← hlen]
    exact List.take_length _
  unfold matchAt
  rw [htake, if_pos rfl, hline, hlen]
  show greedyEndAux (headingMark ++ mid ++ progressPat) (Nat.succ (mid.length + 11))
      = some (mid.length + 12)
  have hsuf2 : progressPat.isSuffixOf
      ((headingMark ++ mid ++ progressPat).take (mid.length + 11 + 1)) = true := by
    rw [show mid.length + 11 + 1 = mid.length + 12 from rfl, htl]
    exact isSuffixOf_append_self (headingMark ++ mid) progressPat
  rw [greedyEndAux]
  rw [if_pos ⟨by omega, hsuf2⟩]

theorem scanReplace_at_match (repl mid post : List Char) (hmid : '\n' ∉ mid)
    (hpost : post = [] ∨ ∃ t2, post = '\n' :: t2) :
    scanReplace repl (headingMark ++ mid ++ progressPat ++ post) = repl ++ post := by
  have hm := matchAt_progress mid post hmid hpost
  have hcons : headingMark ++ mid ++ progressPat ++ post
      = '#' :: ('#' :: (' ' :: ((mid ++ progressPat) ++ post))) := by
    simp [headingMark, List.append_assoc]
  have hlen : ((headingMark ++ mid) ++ progressPat).length = mid.length + 12 := by
    simp only [List.length_append]
    have h1 : headingMark.length = 3 := rfl
    have h2 : progressPat.length = 9 := rfl
    omega
  have hdrop : (((headingMark ++ mid) ++ progressPat) ++ post).drop (mid.length + 12) = post := by
    rw [← hlen]
    exact dropAll_append _ _
  rw [hcons] at hm ⊢
  simp only [scanReplace, hm]
  rw [← hcons]
  exact congrArg (repl ++ ·) hdrop

theorem greedyEndAux_suffix (line : List Char) :
    ∀ n k, greedyEndAux line n = some k → progressPat.isSuffixOf (line.take k) = true := by
  intro n
  induction n with
  | zero =>
      intro k h
      simp [greedyEndAux] at h
  | succ m ih =>
      intro k h
      rw [greedyEndAux] at h
      by_cases hc : 12 ≤ m + 1 ∧ progressPat.isSuffixOf (line.take (m + 1)) = true
      · rw [if_pos hc] at h
        injection h with hk
        subst hk
        exact hc.2
      · rw [if_neg hc] at h
        exact ih k h

theorem lineTake_append_of_mem (rest : List Char) :
    ∀ pre : List Char, '\n' ∈ pre → lineTake (pre ++ rest) = lineTake pre := by
  intro pre
  induction pre with
  | nil =>
      intro h
      simp at h
  | cons c cs ih =>
      intro h
      by_cases hc : c = '\n'
      · subst hc
        simp [lineTake]
      · have h2 : '\n' ∈ cs := by
          rcases List.mem_cons.mp h with h1 | h1
          · exact absurd h1.symm hc
          · exact h1
        have step : lineTake (c :: (cs ++ rest)) = c :: lineTake (cs ++ rest) := by
          simp [lineTake, hc]
        have step2 : lineTake (c :: cs) = c :: lineTake cs := by
          simp [lineTake, hc]
        calc lineTake ((c :: cs) ++ rest) = lineTake (c :: (cs ++ rest)) := rfl
          _ = c :: lineTake (cs ++ rest) := step
          _ = c :: lineTake cs := by rw [ih h2]
          _ = lineTake (c :: cs) := step2.symm

theorem isPrefixOf_sound : ∀ a b : List Char, a.isPrefixOf b = true → a <+: b := by
  intro a
  induction a with
  | nil =>
      intro b _
      exact ⟨b, rfl⟩
  | cons c cs ih =>
      intro b h
      cases b with
      | nil => simp [List.isPrefixOf] at h
      | cons d ds =>
          simp only [List.isPrefixOf, Bool.and_eq_true, beq_iff_eq] at h
          obtain ⟨h1, h2⟩ := h
          subst h1
          obtain ⟨t, ht⟩ := ih ds h2
          exact ⟨t, by rw [List.cons_append, ht]⟩

theorem isSuffixOf_to_suffix (a b : List Char) (h : a.isSuffixOf b = true) : a <:+ b := by
  unfold List.isSuffixOf at h
  exact List.reverse_prefix.mp (isPrefixOf_sound a.reverse b.reverse h)

theorem matchAt_none_of_noInfix (pre rest : List Char)
    (hnl : '\n' ∈ pre) (hni : ¬ progressPat <:+: pre) :
    matchAt (pre ++ rest) = none := by
  unfold matchAt
  by_cases h3 : (pre ++ rest).take 3 = headingMark
  · rw [if_pos h3]
    cases hgr : greedyEndAux (lineTake (pre ++ rest)) (lineTake (pre ++ rest)).length with
    | none => rfl
    | some k =>
        exfalso
        apply hni
        have hsuf := greedyEndAux_suffix _ _ k hgr
        have hline : lineTake (pre ++ rest) = lineTake pre := lineTake_append_of_mem rest pre hnl
        rw [hline] at hsuf
        have hs : progressPat <:+ (lineTake pre).take k := isSuffixOf_to_suffix _ _ hsuf
        have hp : (lineTake pre).take k <+: pre :=
          (List.take_prefix k (lineTake pre)).trans (List.takeWhile_prefix _)
        exact hs.isInfix.trans hp.isInfix
  · rw [if_neg h3]

theorem scanReplace_skip_block (repl rest : List Char) :
    ∀ pre : List Char, ((∃ q, pre = q ++ ['\n']) ∨ pre = []) →
      ¬ progressPat <:+: pre →
      scanReplace repl (pre ++ rest) = pre ++ scanReplace repl rest := by
  intro pre
  induction pre with
  | nil =>
      intro _ _
      rfl
  | cons c cs ih =>
      intro hend hni
      have hq : ∃ q, c :: cs = q ++ ['\n'] := by
        rcases hend with h | h
        · exact h
        · simp at h
      obtain ⟨q, hq⟩ := hq
      have hnl : '\n' ∈ c :: cs := by
        rw [hq]
        simp
      have hm : matchAt ((c :: cs) ++ rest) = none :=
        matchAt_none_of_noInfix (c :: cs) rest hnl hni
      have hend2 : (∃ q2, cs = q2 ++ ['\n']) ∨ cs = [] := by
        cases q with
        | nil =>
            right
            rw [List.nil_append] at hq
            injection hq with h1 h2
        | cons a q2 =>
            left
            rw [List.cons_append] at hq
            injection hq with h1 h2
            exact ⟨q2, h2⟩
      have hni2 : ¬ progressPat <:+: cs := fun hinf =>
        hni (hinf.trans (List.suffix_cons c cs).isInfix)
      calc scanReplace repl ((c :: cs) ++ rest)
          = scanReplace repl (c :: (cs ++ rest)) := rfl
        _ = c :: scanReplace repl (cs ++ rest) := by
            have hm2 : matchAt (c :: (cs ++ rest)) = none := hm
            simp only [scanReplace, hm2]
        _ = c :: (cs ++ scanReplace repl rest) := by rw [ih hend2 hni2]
        _ = (c :: cs) ++ scanReplace repl rest := rfl

theorem scanReplace_progress (repl pre mid post : List Char)
    (hpre : ¬ progressPat <:+: (pre ++ ['\n'])) (hmid : '\n' ∉ mid)
    (hpost : post = [] ∨ ∃ t2, post = '\n' :: t2) :
    scanReplace repl ((pre ++ ['\n']) ++ (headingMark ++ mid ++ progressPat ++ post)) =
      (pre ++ ['\n']) ++ (repl ++ post) := by
  rw [scanReplace_skip_block repl (headingMark ++ mid ++ progressPat ++ post) (pre ++ ['\n'])
      (Or.inl ⟨pre, rfl⟩) hpre]
  rw [scanReplace_at_match repl mid post hmid hpost]

theorem replaceProgress_spec (filename : String) (pre mid post : List Char)
    (hpre : ¬ progressPat <:+: (pre ++ ['\n'])) (hmid : '\n' ∉ mid)
    (hpost : post = [] ∨ ∃ t2, post = '\n' :: t2) :
    replaceProgress filename
        (String.mk ((pre ++ ['\n']) ++ (headingMark ++ mid ++ progressPat ++ post))) =
      String.mk ((pre ++ ['\n']) ++ ((newHeading filename).data ++ post)) := by
  unfold replaceProgress
  exact congrArg String.mk
    (scanReplace_progress (newHeading filename).data pre mid post hpre hmid hpost)

/-- Claim C10: `devlog_workspace_dump` with `keepActive = false` releases the
lock, disables tool tracking, stops the heartbeat and deletes the workspace
file; with `keepActive = true` (the schema default) the workspace file is
retained with its content preserved unchanged except that the Progress
section heading is rewritten to reference the dumped session file; in both
cases the session log file is written to the daily directory first, as the
effect traces show (the metadata write-back occurs only when a metadata
header exists, matching the `if (metadata)` guard of the source).  The
content hypotheses hold for every body the claim handler writes: the
heading is preceded by a newline and no earlier text contains
`" Progress"`. -/
theorem dump_frame_effects (now : Nat) (reason filename : String) (tracker : ToolTracker)
    (st : SysState) (ws : WFile) (l : Lease) (pre mid post : List Char)
    (hws : st.wsFile = some ws) (hl : st.store = some l) (hag : l.agent_id = ws.agent)
    (hbody : ws.body = String.mk ((pre ++ ['\n']) ++ (headingMark ++ mid ++ progressPat ++ post)))
    (hpre : ¬ progressPat <:+: (pre ++ ['\n'])) (hmid : '\n' ∉ mid)
    (hpost : post = [] ∨ ∃ t2, post = '\n' :: t2) :
    dumpKeepActiveDefault = true
    ∧ (dumpHandler now reason filename false tracker st).1.store = none
    ∧ (dumpHandler now reason filename false tracker st).1.tracking = false
    ∧ (dumpHandler now reason filename false tracker st).1.hbRunning = false
    ∧ (dumpHandler now reason filename false tracker st).1.wsFile = none
    ∧ (∃ c, (dumpHandler now reason filename false tracker st).1.daily = (filename, c) :: st.daily)
    ∧ (dumpHandler now reason filename false tracker st).2.2 =
        Effect.flushT :: ((if ws.header.isSome then [Effect.writeWsMeta] else []) ++
          [Effect.writeDaily filename, Effect.releaseL, Effect.disableTrack,
           Effect.stopHB, Effect.unlinkWs])
    ∧ (dumpHandler now reason filename true tracker st).1.wsFile =
        some { ws with body := String.mk ((pre ++ ['\n']) ++ ((newHeading filename).data ++ post)) }
    ∧ (dumpHandler now reason filename true tracker st).1.store = st.store
    ∧ (dumpHandler now reason filename true tracker st).1.tracking = st.tracking
    ∧ (dumpHandler now reason filename true tracker st).1.hbRunning = st.hbRunning
    ∧ (∃ c, (dumpHandler now reason filename true tracker st).1.daily = (filename, c) :: st.daily)
    ∧ (dumpHandler now reason filename true tracker st).2.2 =
        Effect.flushT :: ((if ws.header.isSome then [Effect.writeWsMeta] else []) ++
          [Effect.writeDaily filename, Effect.writeWs]) := by
  have hrepl := replaceProgress_spec filename pre mid post hpre hmid hpost
  have hrel : (releaseLock ws.agent st.store).2 = none := by
    rw [hl]
    simp [releaseLock, hag.symm]
  refine ⟨rfl, ?_, ?_, ?_, ?_, ?_, ?_, ?_, ?_, ?_, ?_, ?_, ?_⟩
  · simp [dumpHandler, hws, hrel]
  · simp [dumpHandler, hws]
  · simp [dumpHandler, hws]
  · simp [dumpHandler, hws]
  · simp [dumpHandler, hws]
  · cases hh : ws.header <;> simp [dumpHandler, hws, hh]
  · simp [dumpHandler, hws]
    rw [hbody, hrepl]
    simp [List.append_assoc]
  · simp [dumpHandler, hws]
  · simp [dumpHandler, hws]
  · simp [dumpHandler, hws]
  · simp [dumpHandler, hws]
  · cases hh : ws.header <;> simp [dumpHandler, hws, hh]

set_option maxRecDepth 100000 in
/-- Closed witness for C10, on the very body the claim handler writes
(`workspaceBody "A" "s1" "fix"`): dumping with `keepActive = false` clears
the store and deletes the file, and with `keepActive = true` retains it with
only the Progress heading rewritten. -/
theorem dump_frame_effects_witness :
    (dumpHandler 7 "r" "f.md" false ⟨true, []⟩
        ⟨some ⟨"A", "s1", 0, 30⟩, true, true,
         some ⟨"A", none, workspaceBody "A" "s1" "fix"⟩, []⟩).1.wsFile = none
    ∧ (dumpHandler 7 "r" "f.md" false ⟨true, []⟩
        ⟨some ⟨"A", "s1", 0, 30⟩, true, true,
         some ⟨"A", none, workspaceBody "A" "s1" "fix"⟩, []⟩).1.store = none
    ∧ (dumpHandler 7 "r" "f.md" true ⟨true, []⟩
        ⟨some ⟨"A", "s1", 0, 30⟩, true, true,
         some ⟨"A", none, workspaceBody "A" "s1" "fix"⟩, []⟩).1.wsFile
      = some ⟨"A", none, String.mk
          ((("# Current Workspace\n\n## task Active Task\nfix\n\n## chart Session Info\n- Agent: A\n- Session: s1\n").data ++ ['\n']) ++
            ((newHeading "f.md").data ++ ("\n\n- [ ] Task started\n").data))⟩ := by
  have h := dump_frame_effects 7 "r" "f.md" ⟨true, []⟩
    ⟨some ⟨"A", "s1", 0, 30⟩, true, true,
     some ⟨"A", none, workspaceBody "A" "s1" "fix"⟩, []⟩
    ⟨"A", none, workspaceBody "A" "s1" "fix"⟩ ⟨"A", "s1", 0, 30⟩
    ("# Current Workspace\n\n## task Active Task\nfix\n\n## chart Session Info\n- Agent: A\n- Session: s1\n").data
    ("active").data ("\n\n- [ ] Task started\n").data
    rfl rfl rfl (by decide) (by decide) (by decide)
    (Or.inr ⟨("\n- [ ] Task started\n").data, by decide⟩)
  exact ⟨h.2.2.2.2.1, h.2.1, h.2.2.2.2.2.2.2.1⟩
